import Mathlib

/-!
Verification of the gerrit-cli data-access and normalization core.

The Go program decodes server responses into generic keyed records
(map[string]interface{}).  We model a decoded JSON value as an inductive
type; objects are association lists in insertion order (Go map iteration
order is unspecified, so every theorem below that depends on object order
is stated about this fixed order).  JSON numbers decode to float64 in Go;
every numeric field the program consumes is whole-valued, so we model a
decoded number by its integer value, and strconv.FormatFloat(v, 'f', 0, 64)
on such a value is integer printing.
-/

namespace GerritCLI

inductive JValue where
  | jstr (s : String)
  | jnum (n : Int)
  | jbool (b : Bool)
  | jnull
  | jobj (fields : List (String × JValue))
  | jarr (elems : List JValue)
deriving Repr, Inhabited

abbrev JObj := List (String × JValue)

/-!
Models of the Go strings package functions the program calls, written
over character lists so that they evaluate inside the kernel.
-/

/-- Model of Go strings.TrimSpace: drop Unicode whitespace from both ends. -/
def goTrimSpace (s : String) : String :=
  (((s.data.dropWhile Char.isWhitespace).reverse.dropWhile
    Char.isWhitespace).reverse).asString

/-- Model of Go strings.ToLower on the simple one-to-one case folding the
program relies on (exact for ASCII). -/
def goToLower (s : String) : String :=
  (s.data.map Char.toLower).asString

/-- Lexicographic comparison of character lists by code point, the order
Go string comparison induces on the ASCII data compared here. -/
def charListLe : List Char → List Char → Bool
  | [], _ => true
  | _ :: _, [] => false
  | a :: as, b :: bs =>
    if a.toNat < b.toNat then true
    else if b.toNat < a.toNat then false
    else charListLe as bs

/-- Non-strict Go string comparison s <= t. -/
def goStringLe (s t : String) : Bool :=
  charListLe s.data t.data

/-- Split of a character list at every occurrence of a separator
character, modelling Go strings.Split with a one-character separator. -/
def splitCharAux (sep : Char) : List Char → List Char → List String
  | [], acc => [acc.reverse.asString]
  | c :: cs, acc =>
    if c = sep then acc.reverse.asString :: splitCharAux sep cs []
    else splitCharAux sep cs (c :: acc)

/-- Model of Go strings.Split(s, sep) for a one-character sep. -/
def goSplitChar (s : String) (sep : Char) : List String :=
  splitCharAux sep s.data []

/-!
Stable insertion sort.  The source sorts with Go sort.Slice, which is
unstable and receives only a strict less predicate; we model each sort
site by a stable sort under the corresponding non-strict comparator, a
sound choice of one admissible execution (no theorem below depends on the
order of elements the source comparator treats as equal, except where a
claim is refuted precisely because the source comparator ignores them).
-/

def insertLe (le : α → α → Bool) (x : α) : List α → List α
  | [] => [x]
  | y :: ys => if le y x then y :: insertLe le x ys else x :: y :: ys

def sortLe (le : α → α → Bool) (l : List α) : List α :=
  l.foldl (fun acc x => insertLe le x acc) []

/-- Lookup of a key in a generic record, modelling the Go map index
expression data[key] (first binding wins; a well-formed decoded object has
no duplicate keys). -/
def jlookup (data : JObj) (key : String) : Option JValue :=
  match data.find? (fun p => p.1 == key) with
  | some p => some p.2
  | none => none

mutual

/-- Rendering used by the default branch of getStringValue, modelling
fmt.Sprintf with the %v verb on the remaining decoded-JSON cases (bool,
nil, nested array, nested object; fmt prints map keys in sorted order). -/
def goFmtV : JValue → String
  | .jstr s => s
  | .jnum n => toString n
  | .jbool b => if b then "true" else "false"
  | .jnull => "<nil>"
  | .jarr elems => "[" ++ String.intercalate " " (goFmtVArr elems) ++ "]"
  | .jobj fields =>
      "map[" ++ String.intercalate " "
        (sortLe goStringLe (goFmtVObj fields)) ++ "]"

def goFmtVArr : List JValue → List String
  | [] => []
  | v :: vs => goFmtV v :: goFmtVArr vs

def goFmtVObj : List (String × JValue) → List String
  | [] => []
  | (k, v) :: fs => (k ++ ":" ++ goFmtV v) :: goFmtVObj fs

end

/-- Source: internal/cmd/update.go, getStringValue.  Switches on the
dynamic type of data[key]: a string is returned as is, a float64 is
rendered by strconv.FormatFloat(v, 'f', 0, 64) (integer text for the
whole-valued numbers produced by JSON decoding), anything else through
fmt.Sprintf %v, and an absent key yields the empty string. -/
def getStringValue (data : JObj) (key : String) : String :=
  match jlookup data key with
  | some (.jstr v) => v
  | some (.jnum v) => toString v
  | some v => goFmtV v
  | none => ""

/-- Source: internal/cmd/comments.go, getAuthorName.  Tries name, then
username, then email, each accepted only when it is a string and
non-empty; otherwise the literal "unknown". -/
def getAuthorName (author : JObj) : String :=
  match jlookup author "name" with
  | some (.jstr name) =>
    if name ≠ "" then name else getAuthorNameUser author
  | _ => getAuthorNameUser author
where
  getAuthorNameUser (author : JObj) : String :=
    match jlookup author "username" with
    | some (.jstr username) =>
      if username ≠ "" then username else getAuthorNameEmail author
    | _ => getAuthorNameEmail author
  getAuthorNameEmail (author : JObj) : String :=
    match jlookup author "email" with
    | some (.jstr email) =>
      if email ≠ "" then email else "unknown"
    | _ => "unknown"

/-- Source: internal/cmd/update.go, getOwnerName.  Reads the nested owner
object of a change and applies the name / username / email cascade,
defaulting to "unknown". -/
def getOwnerName (change : JObj) : String :=
  match jlookup change "owner" with
  | some (.jobj owner) =>
    match jlookup owner "name" with
    | some (.jstr name) =>
      if name ≠ "" then name else getOwnerNameUser owner
    | _ => getOwnerNameUser owner
  | _ => "unknown"
where
  getOwnerNameUser (owner : JObj) : String :=
    match jlookup owner "username" with
    | some (.jstr username) =>
      if username ≠ "" then username else getOwnerNameEmail owner
    | _ => getOwnerNameEmail owner
  getOwnerNameEmail (owner : JObj) : String :=
    match jlookup owner "email" with
    | some (.jstr email) =>
      if email ≠ "" then email else "unknown"
    | _ => "unknown"

/-- Source: internal/cmd/comments.go, type Comment.  Fields keep the Go
zero values ("" / 0 / false) when a parser leaves them unassigned. -/
structure Comment where
  File : String
  Line : Int
  Author : String
  Message : String
  Updated : String
  Unresolved : Bool
  InReplyTo : String
deriving Repr, DecidableEq, Inhabited

/-- Source: internal/cmd/comments.go, the body of the inner loop of
parseRESTComments, building one Comment from a decoded comment object of
the REST per-file comment list. -/
def parseRESTComment (filename : String) (comment : JObj) : Comment :=
  { File := filename
    Message := getStringValue comment "message"
    Updated := getStringValue comment "updated"
    Line := match jlookup comment "line" with
            | some (.jnum line) => line
            | _ => 0
    Author := match jlookup comment "author" with
              | some (.jobj author) => getAuthorName author
              | _ => ""
    Unresolved := match jlookup comment "unresolved" with
                  | some (.jbool unresolved) => unresolved
                  | _ => false
    InReplyTo := getStringValue comment "in_reply_to" }

/-- Source: internal/cmd/comments.go, parseRESTComments.  The REST comment
payload maps each filename to a list of comment objects; entries that are
not lists, and elements that are not objects, are skipped.  Go iterates
the outer map in unspecified order; we fix the insertion order of the
decoded object. -/
def parseRESTComments (commentsData : JObj) : List Comment :=
  commentsData.flatMap fun p =>
    match p.2 with
    | .jarr commentsList =>
        commentsList.filterMap fun commentData =>
          match commentData with
          | .jobj comment => some (parseRESTComment p.1 comment)
          | _ => none
    | _ => []

/-- Source: internal/cmd/comments.go, the body of the loop of
parseSSHComments.  The SSH schema nests comments in the change record and
reports file, timestamp and reviewer under different keys; the unresolved
flag is never assigned and stays at the Go zero value false. -/
def parseSSHComment (comment : JObj) : Comment :=
  { File := getStringValue comment "file"
    Message := getStringValue comment "message"
    Updated := getStringValue comment "timestamp"
    Line := match jlookup comment "line" with
            | some (.jnum line) => line
            | _ => 0
    Author := match jlookup comment "reviewer" with
              | some (.jobj reviewer) => getAuthorName reviewer
              | _ => ""
    Unresolved := false
    InReplyTo := "" }

/-- Source: internal/cmd/comments.go, parseSSHComments. -/
def parseSSHComments (changeData : JObj) : List Comment :=
  match jlookup changeData "comments" with
  | some (.jarr commentsSection) =>
      commentsSection.filterMap fun commentData =>
        match commentData with
        | .jobj comment => some (parseSSHComment comment)
        | _ => none
  | _ => []

/-- Model of Go strings.EqualFold restricted to the case folding the
program relies on (per-character lower-casing; exact for the ASCII
comparisons performed here). -/
def stringsEqualFold (s t : String) : Bool :=
  goToLower s == goToLower t

/-- Source: internal/cmd/comments.go, buildCommentThreads, the thread key
fmt.Sprintf of the file and line of a comment. -/
def threadKey (c : Comment) : String :=
  c.File ++ ":" ++ toString c.Line

/-- Accumulation of a comment under its thread key, modelling the Go map
append threadMap[threadKey] = append(...); the association list keeps
first-insertion key order (Go map iteration order is unspecified). -/
def insertThread (threadMap : List (String × List Comment)) (key : String)
    (c : Comment) : List (String × List Comment) :=
  match threadMap with
  | [] => [(key, [c])]
  | (k, cs) :: rest =>
    if k = key then (k, cs ++ [c]) :: rest
    else (k, cs) :: insertThread rest key c

/-- Source: internal/cmd/comments.go, buildCommentThreads.  Groups
comments by the (file, line) key and sorts each thread by the updated
timestamp ascending (Go uses an unstable sort.Slice on the strict order;
we take the stable sort under the corresponding non-strict comparator). -/
def buildCommentThreads (comments : List Comment) : List (List Comment) :=
  let threadMap := comments.foldl
    (fun m c => insertThread m (threadKey c) c) []
  threadMap.map fun p => sortLe (fun a b => goStringLe a.Updated b.Updated) p.2

/-- Resolution predicate of markThreadResolution applied to the most
recent comment of a thread: resolved when the server-reported unresolved
flag is off, or when the trimmed message equals "Done" case-insensitively. -/
def isResolvedComment (lastComment : Comment) : Bool :=
  !lastComment.Unresolved ||
    stringsEqualFold (goTrimSpace lastComment.Message) "Done"

/-- Source: internal/cmd/comments.go, the loop body of
markThreadResolution: read the last (most recent) comment of the
timestamp-sorted thread and stamp every member with the derived verdict. -/
def markThread (thread : List Comment) : List Comment :=
  match thread.getLast? with
  | none => thread
  | some lastComment =>
    thread.map fun c => { c with Unresolved := !isResolvedComment lastComment }

/-- Source: internal/cmd/comments.go, markThreadResolution. -/
def markThreadResolution (threads : List (List Comment)) : List (List Comment) :=
  threads.map markThread

/-- Verdict read off a marked thread, as the filter in displayComments
reads it: len(thread) > 0 && thread[0].Unresolved. -/
def threadUnresolved (thread : List Comment) : Bool :=
  match thread.head? with
  | some c => c.Unresolved
  | none => false

/-- Source: internal/cmd/comments.go, displayComments, the filtering
step: without --all, keep only threads whose first member carries the
(uniformly stamped) unresolved verdict. -/
def filterThreads (showAll : Bool) (threads : List (List Comment)) :
    List (List Comment) :=
  if showAll then threads
  else threads.filter threadUnresolved

/-- The thread pipeline of displayComments up to and including filtering:
group, sort, mark, filter.  The subsequent steps only flatten and reorder
these threads for printing. -/
def displayThreads (showAll : Bool) (comments : List Comment) :
    List (List Comment) :=
  filterThreads showAll (markThreadResolution (buildCommentThreads comments))

/-- Source: internal/cmd/comments.go, displayComments summary: both
summary lines count threads of the (possibly filtered) thread list, not
raw comments; the unresolved figure counts threads whose verdict is
unresolved. -/
def unresolvedThreadCount (threads : List (List Comment)) : Nat :=
  (threads.filter threadUnresolved).length

/-- Source: internal/cmd/fetch.go, getCurrentPatchsetNumber.  REST path:
when the record carries a revisions object, a non-empty current_revision
string, and the revision map holds that key as an object, return that
_number rendering of that revision (even when _number is absent, in which case
the result is the empty string with no fallthrough).  Otherwise SSH path:
a currentPatchSet object yields its number rendering (again with no
fallthrough when absent).  Otherwise the top-level number field. -/
def getCurrentPatchsetNumber (change : JObj) : String :=
  let restResult : Option String :=
    match jlookup change "revisions" with
    | some (.jobj revisions) =>
      let currentRevision := getStringValue change "current_revision"
      if currentRevision ≠ "" then
        match jlookup revisions currentRevision with
        | some (.jobj rev) => some (getStringValue rev "_number")
        | _ => none
      else none
    | _ => none
  match restResult with
  | some result => result
  | none =>
    match jlookup change "currentPatchSet" with
    | some (.jobj currentPatchSet) => getStringValue currentPatchSet "number"
    | _ => getStringValue change "number"

/-- Source: internal/cmd/fetch.go, getChangePrefix.  The last two
characters of the change identifier when it has at least two; the literal
"00" otherwise.  Go slices bytes; for the decimal-digit identifiers this
is the character slice modelled here. -/
def getChangePrefix (changeID : String) : String :=
  if changeID.length ≥ 2 then changeID.takeRight 2
  else "00"

/-- Source: internal/cmd/fetch.go, runFetch lines 72 to 77, the
fmt.Sprintf that assembles the fetch ref. -/
def buildRefsPath (changeID patchsetNum : String) : String :=
  "refs/changes/" ++ getChangePrefix changeID ++ "/" ++ changeID ++ "/"
    ++ patchsetNum

/-- Source: internal/cmd/update.go (list command document), runList lines
244 to 253, as the pure function of the outcome of each transport: REST
success is final; on REST failure a warning is recorded and the SSH
outcome decides, with a total failure wrapped as "failed to list
changes: " around the SSH error.  The second component is the list of
recorded non-fatal warnings. -/
def runListCore (restResult sshResult : Except String (List JObj)) :
    Except String (List JObj) × List String :=
  match restResult with
  | .ok changes => (.ok changes, [])
  | .error e =>
    match sshResult with
    | .ok changes => (.ok changes, ["REST API failed: " ++ e])
    | .error e2 =>
      (.error ("failed to list changes: " ++ e2), ["REST API failed: " ++ e])

/-- Source: internal/cmd/comments.go, runComments lines 44 to 53: the
same fallback shape over comment retrieval, wrapping a total failure as
"failed to get comments: " around the SSH error. -/
def runCommentsCore (restResult sshResult : Except String (List Comment)) :
    Except String (List Comment) × List String :=
  match restResult with
  | .ok comments => (.ok comments, [])
  | .error e =>
    match sshResult with
    | .ok comments => (.ok comments, ["REST API failed: " ++ e])
    | .error e2 =>
      (.error ("failed to get comments: " ++ e2), ["REST API failed: " ++ e])

/-- Source: internal/cmd/details.go, runDetails lines 44 to 52: the same
fallback shape over single-change retrieval (the getChange logical
operation), wrapping a total failure as "failed to get change details: "
around the SSH error. -/
def runDetailsCore (restResult sshResult : Except String JObj) :
    Except String JObj × List String :=
  match restResult with
  | .ok change => (.ok change, [])
  | .error e =>
    match sshResult with
    | .ok change => (.ok change, ["REST API failed: " ++ e])
    | .error e2 =>
      (.error ("failed to get change details: " ++ e2),
       ["REST API failed: " ++ e])

/-- Reading of the _more_changes continuation flag on the last record of a
page, as fetchAllChangesWithPagination reads it: present and true. -/
def lastHasMoreChanges (page : List JObj) : Bool :=
  match page.getLast? with
  | some lastChange =>
    match jlookup lastChange "_more_changes" with
    | some (.jbool true) => true
    | _ => false
  | none => false

/-- Source: internal/cmd/cherrypick.go, the loop of
fetchAllChangesWithPagination.  The server is the function from a start
offset to the page the REST call returns (a fixed response per offset;
errors are out of scope of the termination claims).  Returns the
accumulated records and the number of requests issued.  The loop guard
start < maxLimit is checked before each request, with start equal to the
number of records fetched so far. -/
def fetchAllPages (server : Nat → List JObj) (pageSize maxLimit : Nat)
    (start : Nat) (acc : List JObj) (reqs : Nat) : List JObj × Nat :=
  if h : start < maxLimit then
    let page := server start
    if hp : page.length = 0 then (acc, reqs + 1)
    else
      let acc2 := acc ++ page
      if page.length < pageSize then (acc2, reqs + 1)
      else if lastHasMoreChanges page then
        fetchAllPages server pageSize maxLimit (start + page.length) acc2
          (reqs + 1)
      else (acc2, reqs + 1)
  else (acc, reqs)
termination_by maxLimit - start
decreasing_by
  simp_wf
  have h1 : 0 < (server start).length := Nat.pos_of_ne_zero hp
  omega

/-- Source: internal/cmd/cherrypick.go, fetchAllChangesWithPagination,
started at offset 0 with an empty accumulator. -/
def fetchAllChangesWithPagination (server : Nat → List JObj)
    (pageSize maxLimit : Nat) : List JObj × Nat :=
  fetchAllPages server pageSize maxLimit 0 [] 0

/-- Source: internal/cmd/cherrypick.go, type Statistic. -/
structure Statistic where
  Name : String
  Count : Nat
  RepoCount : Nat
deriving Repr, DecidableEq, Inhabited

/-- Increment of a string-keyed counter, modelling counts[key]++ on a Go
map; insertion order of first appearance is kept. -/
def bumpCount (counts : List (String × Nat)) (key : String) :
    List (String × Nat) :=
  match counts with
  | [] => [(key, 1)]
  | (k, n) :: rest =>
    if k = key then (k, n + 1) :: rest
    else (k, n) :: bumpCount rest key

/-- Source: internal/cmd/cherrypick.go, analyzeByRepository: count by the
project field (empty projects skipped), then sort by count descending
only — the comparator reads no other field.  sort.Slice is unstable and
the Go map iteration order is unspecified; the model keeps
first-insertion order among equal counts. -/
def analyzeByRepository (changes : List JObj) : List Statistic :=
  let repoCounts := changes.foldl
    (fun counts change =>
      let repo := getStringValue change "project"
      if repo ≠ "" then bumpCount counts repo else counts) []
  let stats := repoCounts.map fun p =>
    { Name := p.1, Count := p.2, RepoCount := 0 : Statistic }
  sortLe (fun a b => b.Count ≤ a.Count) stats

/-- Author attribution used by analyzeByAuthor: owner name, then
username, then email, each through getStringValue (so empty when absent). -/
def analyzeAuthorOf (change : JObj) : String :=
  match jlookup change "owner" with
  | some (.jobj owner) =>
    let author := getStringValue owner "name"
    let author := if author = "" then getStringValue owner "username" else author
    if author = "" then getStringValue owner "email" else author
  | _ => ""

/-- Record of a repository against an author, modelling
authorRepos[author][repo] = true. -/
def addAuthorRepo (repos : List (String × List String)) (author repo : String) :
    List (String × List String) :=
  match repos with
  | [] => [(author, [repo])]
  | (a, rs) :: rest =>
    if a = author then
      (a, if repo ∈ rs then rs else rs ++ [repo]) :: rest
    else (a, rs) :: addAuthorRepo rest author repo

/-- Source: internal/cmd/cherrypick.go, analyzeByAuthor: count changes
per author (changes with no derivable author skipped), count each
distinct repositories of each author, then sort by count descending only. -/
def analyzeByAuthor (changes : List JObj) : List Statistic :=
  let step := fun (st : List (String × Nat) × List (String × List String))
      (change : JObj) =>
    let author := analyzeAuthorOf change
    if author ≠ "" then
      let counts := bumpCount st.1 author
      let repo := getStringValue change "project"
      let repos := if repo ≠ "" then addAuthorRepo st.2 author repo else st.2
      (counts, repos)
    else st
  let st := changes.foldl step ([], [])
  let stats := st.1.map fun p =>
    { Name := p.1, Count := p.2
      RepoCount := match st.2.find? (fun q => q.1 == p.1) with
                   | some q => q.2.length
                   | none => 0 : Statistic }
  sortLe (fun a b => b.Count ≤ a.Count) stats

/-- Month-bucket key of a change, as analyzeTimeline extracts it: the
submitted timestamp (or updated when absent), split at the T separator,
and the first two dash-separated parts of the date portion; none when no
month can be extracted. -/
def timelineMonthOf (change : JObj) : Option String :=
  let submitted := getStringValue change "submitted"
  let submitted := if submitted = "" then getStringValue change "updated"
    else submitted
  if submitted ≠ "" then
    match (goSplitChar submitted 'T').head? with
    | some datePart =>
      match goSplitChar datePart '-' with
      | y :: m :: _ => some (y ++ "-" ++ m)
      | _ => none
    | none => none
  else none

/-- Source: internal/cmd/cherrypick.go, analyzeTimeline: bucket by
calendar month of the submission (or update) timestamp, then sort by the
month name ascending. -/
def analyzeTimeline (changes : List JObj) : List Statistic :=
  let monthCounts := changes.foldl
    (fun counts change =>
      match timelineMonthOf change with
      | some month => bumpCount counts month
      | none => counts) []
  let stats := monthCounts.map fun p =>
    { Name := p.1, Count := p.2, RepoCount := 0 : Statistic }
  sortLe (fun a b => goStringLe a.Name b.Name) stats

/-!
Concrete inputs used by counterexamples and witnesses.
-/

/-- A review comment whose thread-closing reply is the word Done in upper
case with surrounding whitespace, while the server still reports it
unresolved. -/
def doneReply : Comment :=
  { File := "a.go", Line := 3, Author := "reviewer", Message := " DONE "
    Updated := "2024-01-02", Unresolved := true, InReplyTo := "" }

/-- The opening comment of the same thread. -/
def openingComment : Comment :=
  { File := "a.go", Line := 3, Author := "owner", Message := "fix this"
    Updated := "2024-01-01", Unresolved := true, InReplyTo := "" }

/-- Three-thread input for the filtering scenario: a two-member thread on
b.go line 7 whose last comment is substantive and unresolved, a two-member
thread on a.go line 3 closed by the Done reply, and a one-member resolved
thread on c.go line 1. -/
def filterScenario : List Comment :=
  [ { File := "b.go", Line := 7, Author := "owner", Message := "why?"
      Updated := "2024-01-01", Unresolved := true, InReplyTo := "" }
  , { File := "b.go", Line := 7, Author := "reviewer", Message := "because"
      Updated := "2024-01-03", Unresolved := true, InReplyTo := "" }
  , openingComment
  , doneReply
  , { File := "c.go", Line := 1, Author := "reviewer", Message := "nit"
      Updated := "2024-01-01", Unresolved := false, InReplyTo := "" } ]

/-- The surviving thread of the filtering scenario, stamped unresolved. -/
def survivingThread : List Comment :=
  [ { File := "b.go", Line := 7, Author := "owner", Message := "why?"
      Updated := "2024-01-01", Unresolved := true, InReplyTo := "" }
  , { File := "b.go", Line := 7, Author := "reviewer", Message := "because"
      Updated := "2024-01-03", Unresolved := true, InReplyTo := "" } ]

/-- One decoded SSH inline-comment object. -/
def sshInnerComment : JObj :=
  [("file", .jstr "a.go"), ("line", .jnum 3),
   ("message", .jstr "fix this"),
   ("timestamp", .jstr "2024-01-01"),
   ("reviewer", .jobj [("name", .jstr "reviewer")])]

/-- An SSH change record carrying one inline comment, with the resolution
state the SSH schema cannot express. -/
def sshChangeData : JObj :=
  [("comments", .jarr [.jobj sshInnerComment])]

/-- A REST-shaped change record whose current revision object lacks the
_number field while both the SSH-shaped nested patchset and the top-level
number field carry one. -/
def degenerateChange : JObj :=
  [ ("revisions", .jobj [("deadbeef", .jobj [])])
  , ("current_revision", .jstr "deadbeef")
  , ("currentPatchSet", .jobj [("number", .jnum 5)])
  , ("number", .jnum 7) ]

/-- The same record without the revisions map, on which the nested
patchset path is taken. -/
def degenerateChangeNoRevisions : JObj :=
  [ ("currentPatchSet", .jobj [("number", .jnum 5)])
  , ("number", .jnum 7) ]

/-- REST-shaped change record with patchset number n under the revision
hash. -/
def restShapedChange (n : Int) (hash : String) : JObj :=
  [ ("revisions", .jobj [(hash, .jobj [("_number", .jnum n)])])
  , ("current_revision", .jstr hash) ]

/-- SSH-shaped change record with patchset number n in the nested
currentPatchSet object. -/
def sshShapedChange (n : Int) : JObj :=
  [("currentPatchSet", .jobj [("number", .jnum n)])]

/-- A server that answers every offset with a full page of two records,
each carrying the continuation flag. -/
def unboundedServer : Nat → List JObj :=
  fun _ => [[("_more_changes", JValue.jbool true)],
            [("_more_changes", JValue.jbool true)]]

/-- Two merged changes in the same count bucket whose projects are in
reverse alphabetical order of first appearance. -/
def tiedRepoChanges : List JObj :=
  [[("project", JValue.jstr "zeta")], [("project", JValue.jstr "alpha")]]

/-- Two merged changes submitted in January and February 2025. -/
def twoMonthChanges : List JObj :=
  [[("submitted", JValue.jstr "2025-01-15T10:00:00")],
   [("submitted", JValue.jstr "2025-02-01T09:00:00")]]

/-!
Helper lemmas about the stable insertion sort, the character order, and
the thread grouping.
-/

theorem mem_insertLe (le : α → α → Bool) (x : α) (l : List α) (z : α) :
    z ∈ insertLe le x l ↔ z = x ∨ z ∈ l := by
  induction l with
  | nil => simp [insertLe]
  | cons y ys ih =>
    by_cases h : le y x = true
    · rw [insertLe, if_pos h]
      simp only [List.mem_cons, ih]
      tauto
    · rw [insertLe, if_neg h]
      simp only [List.mem_cons]

theorem insertLe_pairwise (le : α → α → Bool)
    (htot : ∀ a b, le a b = true ∨ le b a = true)
    (htrans : ∀ a b c, le a b = true → le b c = true → le a c = true)
    (x : α) (l : List α) (hl : l.Pairwise (fun a b => le a b = true)) :
    (insertLe le x l).Pairwise (fun a b => le a b = true) := by
  induction l with
  | nil => simp [insertLe]
  | cons y ys ih =>
    rw [List.pairwise_cons] at hl
    obtain ⟨hy, hys⟩ := hl
    by_cases h : le y x = true
    · rw [insertLe, if_pos h]
      rw [List.pairwise_cons]
      refine ⟨?_, ih hys⟩
      intro z hz
      rcases (mem_insertLe le x ys z).mp hz with rfl | hmem
      · exact h
      · exact hy z hmem
    · have hx : le x y = true := by
        rcases htot x y with h1 | h1
        · exact h1
        · exact absurd h1 h
      rw [insertLe, if_neg h]
      rw [List.pairwise_cons]
      refine ⟨?_, List.pairwise_cons.mpr ⟨hy, hys⟩⟩
      intro z hz
      rcases List.mem_cons.mp hz with rfl | hmem
      · exact hx
      · exact htrans x y z hx (hy z hmem)

theorem sortLe_pairwise (le : α → α → Bool)
    (htot : ∀ a b, le a b = true ∨ le b a = true)
    (htrans : ∀ a b c, le a b = true → le b c = true → le a c = true)
    (l : List α) :
    (sortLe le l).Pairwise (fun a b => le a b = true) := by
  suffices h : ∀ acc, acc.Pairwise (fun a b => le a b = true) →
      (l.foldl (fun acc x => insertLe le x acc) acc).Pairwise
        (fun a b => le a b = true) by
    exact h [] (by simp)
  induction l with
  | nil => intro acc hacc; simpa using hacc
  | cons x xs ih =>
    intro acc hacc
    exact ih (insertLe le x acc) (insertLe_pairwise le htot htrans x acc hacc)

theorem mem_sortLe (le : α → α → Bool) (l : List α) (z : α) :
    z ∈ sortLe le l ↔ z ∈ l := by
  suffices h : ∀ acc, z ∈ l.foldl (fun acc x => insertLe le x acc) acc ↔
      z ∈ l ∨ z ∈ acc by
    simpa using h []
  induction l with
  | nil => intro acc; simp
  | cons x xs ih =>
    intro acc
    rw [List.foldl_cons, ih (insertLe le x acc), mem_insertLe]
    simp only [List.mem_cons]
    tauto

theorem charListLe_total : ∀ as bs, charListLe as bs = true ∨ charListLe bs as = true := by
  intro as
  induction as with
  | nil => intro bs; left; simp [charListLe]
  | cons a as ih =>
    intro bs
    cases bs with
    | nil => right; simp [charListLe]
    | cons b bs =>
      by_cases h1 : a.toNat < b.toNat
      · left; simp [charListLe, h1]
      · by_cases h2 : b.toNat < a.toNat
        · right; simp [charListLe, h2]
        · rcases ih bs with h | h
          · left; simp [charListLe, h1, h2, h]
          · right; simp [charListLe, h1, h2, h]

theorem charListLe_trans : ∀ as bs cs, charListLe as bs = true →
    charListLe bs cs = true → charListLe as cs = true := by
  intro as
  induction as with
  | nil => intro bs cs h1 h2; simp [charListLe]
  | cons a as ih =>
    intro bs cs h1 h2
    cases bs with
    | nil => simp [charListLe] at h1
    | cons b bs =>
      cases cs with
      | nil => simp [charListLe] at h2
      | cons c cs =>
        simp only [charListLe] at h1 h2 ⊢
        split_ifs at h1 with hab hba <;>
          split_ifs at h2 with hbc hcb <;>
          split_ifs with hac hca <;>
          first
            | rfl
            | omega
            | (exact ih bs cs h1 h2)

theorem goStringLe_total (s t : String) :
    goStringLe s t = true ∨ goStringLe t s = true :=
  charListLe_total s.data t.data

theorem goStringLe_trans (s t u : String) (h1 : goStringLe s t = true)
    (h2 : goStringLe t u = true) : goStringLe s u = true :=
  charListLe_trans s.data t.data u.data h1 h2

theorem mem_insertThread (m : List (String × List Comment)) (key : String)
    (c : Comment) :
    ∀ q ∈ insertThread m key c, ∀ x ∈ q.2,
      (∃ q2 ∈ m, x ∈ q2.2) ∨ x = c := by
  induction m with
  | nil =>
    intro q hq x hx
    simp only [insertThread, List.mem_singleton] at hq
    subst hq
    simp only [List.mem_singleton] at hx
    right; exact hx
  | cons p rest ih =>
    obtain ⟨k, cs⟩ := p
    intro q hq x hx
    by_cases hk : k = key
    · rw [insertThread, if_pos hk] at hq
      rcases List.mem_cons.mp hq with rfl | hq2
      · rcases List.mem_append.mp hx with hx2 | hx2
        · left; exact ⟨(k, cs), List.mem_cons_self _ _, hx2⟩
        · right; simpa using hx2
      · left; exact ⟨q, List.mem_cons_of_mem _ hq2, hx⟩
    · rw [insertThread, if_neg hk] at hq
      rcases List.mem_cons.mp hq with rfl | hq2
      · left; exact ⟨(k, cs), List.mem_cons_self _ _, hx⟩
      · rcases ih q hq2 x hx with ⟨q2, hq3, hx3⟩ | hx3
        · left; exact ⟨q2, List.mem_cons_of_mem _ hq3, hx3⟩
        · right; exact hx3

theorem mem_foldl_insertThread :
    ∀ (comments : List Comment) (acc : List (String × List Comment)) q,
      q ∈ comments.foldl (fun m c => insertThread m (threadKey c) c) acc →
      ∀ x ∈ q.2, (∃ q2 ∈ acc, x ∈ q2.2) ∨ x ∈ comments := by
  intro comments
  induction comments with
  | nil =>
    intro acc q hq x hx
    left; exact ⟨q, hq, hx⟩
  | cons c cs ih =>
    intro acc q hq x hx
    rw [List.foldl_cons] at hq
    rcases ih (insertThread acc (threadKey c) c) q hq x hx with
      ⟨q2, hq2, hx2⟩ | hmem
    · rcases mem_insertThread acc (threadKey c) c q2 hq2 x hx2 with
        ⟨q3, hq3, hx3⟩ | rfl
      · left; exact ⟨q3, hq3, hx3⟩
      · right; simp
    · right; simp [hmem]

theorem mem_of_mem_buildCommentThreads (comments : List Comment)
    (t : List Comment) (ht : t ∈ buildCommentThreads comments)
    (c : Comment) (hc : c ∈ t) : c ∈ comments := by
  unfold buildCommentThreads at ht
  rw [List.mem_map] at ht
  obtain ⟨p, hp, rfl⟩ := ht
  rw [mem_sortLe] at hc
  rcases mem_foldl_insertThread comments [] p hp c hc with ⟨q2, hq2, _⟩ | h
  · simp at hq2
  · exact h

theorem buildCommentThreads_sorted (comments : List Comment)
    (t : List Comment) (ht : t ∈ buildCommentThreads comments) :
    t.Pairwise (fun a b => goStringLe a.Updated b.Updated = true) := by
  unfold buildCommentThreads at ht
  rw [List.mem_map] at ht
  obtain ⟨p, _, rfl⟩ := ht
  exact sortLe_pairwise _
    (fun a b => goStringLe_total a.Updated b.Updated)
    (fun a b c => goStringLe_trans a.Updated b.Updated c.Updated) p.2

theorem markThread_of_getLast (t : List Comment) (l : Comment)
    (hl : t.getLast? = some l) :
    markThread t = t.map fun c =>
      { c with Unresolved := !isResolvedComment l } := by
  unfold markThread
  rw [hl]

/-!
Claim theorems.
-/

/-- Claim C1: for every collection of comments and every derived thread
(the comments sharing one (file, line) key, ordered by update timestamp
ascending), the single resolution state stamped on every member is
resolved exactly when the most recent comment has its server-reported
unresolved flag off or has a trimmed message equal to "Done"
case-insensitively; in particular a thread whose last comment has
unresolved=true and a message reading done in any case or whitespace is
stamped resolved. -/
theorem thread_resolution_policy (comments : List Comment)
    (t : List Comment) (ht : t ∈ buildCommentThreads comments)
    (l : Comment) (hl : t.getLast? = some l) :
    t.Pairwise (fun a b => goStringLe a.Updated b.Updated = true) ∧
    (∀ c ∈ markThread t,
      c.Unresolved = !(!l.Unresolved ||
        stringsEqualFold (goTrimSpace l.Message) "Done")) ∧
    (l.Unresolved = true →
      stringsEqualFold (goTrimSpace l.Message) "Done" = true →
      ∀ c ∈ markThread t, c.Unresolved = false) := by
  refine ⟨buildCommentThreads_sorted comments t ht, ?_, ?_⟩
  · intro c hc
    rw [markThread_of_getLast t l hl] at hc
    rw [List.mem_map] at hc
    obtain ⟨c0, _, rfl⟩ := hc
    rfl
  · intro hU hD c hc
    rw [markThread_of_getLast t l hl] at hc
    rw [List.mem_map] at hc
    obtain ⟨c0, _, rfl⟩ := hc
    simp [isResolvedComment, hU, hD, stringsEqualFold]
    simp [stringsEqualFold] at hD
    simp [hD]

/-- Witness for C1 at a concrete two-comment thread whose closing reply is
" DONE " while the server still reports it unresolved. -/
theorem thread_resolution_policy_witness :
    [openingComment, doneReply] ∈
      buildCommentThreads [doneReply, openingComment] ∧
    [openingComment, doneReply].getLast? = some doneReply ∧
    doneReply.Unresolved = true ∧
    (∀ c ∈ markThread [openingComment, doneReply], c.Unresolved = false) :=
  ⟨by decide, by decide, by decide,
    (thread_resolution_policy [doneReply, openingComment]
      [openingComment, doneReply] (by decide) doneReply (by decide)).2.2
      (by decide) (by decide)⟩

/-- Claim C3: in the default unresolved-only mode the display pipeline is
exactly a filter over marked threads, so resolved-verdict threads are
dropped whole, unresolved-verdict threads survive with every member, and
the summary counts range over threads; on the three-thread scenario with
exactly one unresolved thread, the output is exactly that thread with its
full member count. -/
theorem unresolved_only_filters_threads (comments : List Comment) :
    displayThreads false comments =
      (markThreadResolution (buildCommentThreads comments)).filter
        threadUnresolved ∧
    (∀ t ∈ displayThreads false comments, threadUnresolved t = true) ∧
    (∀ t, t ∈ markThreadResolution (buildCommentThreads comments) →
      threadUnresolved t = true → t ∈ displayThreads false comments) ∧
    unresolvedThreadCount (displayThreads false comments) =
      (displayThreads false comments).length ∧
    displayThreads false filterScenario = [survivingThread] ∧
    survivingThread.length = 2 := by
  have h0 : displayThreads false comments =
      (markThreadResolution (buildCommentThreads comments)).filter
        threadUnresolved := rfl
  refine ⟨h0, ?_, ?_, ?_, by decide, by decide⟩
  · intro t ht
    rw [h0] at ht
    exact (List.mem_filter.mp ht).2
  · intro t ht hu
    rw [h0]
    exact List.mem_filter.mpr ⟨ht, hu⟩
  · rw [h0]
    unfold unresolvedThreadCount
    rw [List.filter_filter]
    simp

/-- Witness for C3 applying the kept-thread conjunct at the surviving
thread of the concrete scenario. -/
theorem unresolved_only_filters_threads_witness :
    survivingThread ∈
      markThreadResolution (buildCommentThreads filterScenario) ∧
    threadUnresolved survivingThread = true ∧
    survivingThread ∈ displayThreads false filterScenario :=
  ⟨by decide, by decide,
    (unresolved_only_filters_threads filterScenario).2.2.1 survivingThread
      (by decide) (by decide)⟩

/-- Claim C10: every comment parsed from the SSH transport carries the
unresolved flag false (the SSH parser never assigns it), and consequently
the default unresolved-only view over SSH-fetched comments is empty
whatever the server-side resolution state was. -/
theorem ssh_comments_never_unresolved :
    (∀ changeData : JObj, ∀ c ∈ parseSSHComments changeData,
      c.Unresolved = false) ∧
    (∀ changeData : JObj,
      displayThreads false (parseSSHComments changeData) = []) := by
  have hflag : ∀ changeData : JObj, ∀ c ∈ parseSSHComments changeData,
      c.Unresolved = false := by
    intro changeData c hc
    unfold parseSSHComments at hc
    split at hc
    · rw [List.mem_filterMap] at hc
      obtain ⟨v, _, hv⟩ := hc
      split at hv
      · obtain rfl := Option.some.inj hv
        rfl
      · simp at hv
    · simp at hc
  refine ⟨hflag, ?_⟩
  intro changeData
  have key : ∀ (cs : List Comment), (∀ c ∈ cs, c.Unresolved = false) →
      displayThreads false cs = [] := by
    intro cs hcs
    have h0 : displayThreads false cs =
        (markThreadResolution (buildCommentThreads cs)).filter
          threadUnresolved := rfl
    rw [h0, List.filter_eq_nil_iff]
    intro t ht
    unfold markThreadResolution at ht
    rw [List.mem_map] at ht
    obtain ⟨t0, ht0, rfl⟩ := ht
    cases hgl : t0.getLast? with
    | none =>
      have ht0nil : t0 = [] := List.getLast?_eq_none_iff.mp hgl
      subst ht0nil
      simp [markThread, threadUnresolved]
    | some l =>
      have hlmem : l ∈ t0 := List.mem_of_getLast?_eq_some hgl
      have hl0 : l.Unresolved = false :=
        hcs l (mem_of_mem_buildCommentThreads cs t0 ht0 l hlmem)
      rw [markThread_of_getLast t0 l hgl]
      cases t0 with
      | nil => simp [threadUnresolved]
      | cons c0 rest =>
        simp [threadUnresolved, isResolvedComment, hl0]
  exact key _ (hflag changeData)

/-- Witness for C10 at a concrete SSH change record carrying one comment. -/
theorem ssh_comments_never_unresolved_witness :
    parseSSHComment sshInnerComment ∈ parseSSHComments sshChangeData ∧
    (parseSSHComment sshInnerComment).Unresolved = false ∧
    displayThreads false (parseSSHComments sshChangeData) = [] :=
  ⟨by decide,
    ssh_comments_never_unresolved.1 sshChangeData
      (parseSSHComment sshInnerComment) (by decide),
    ssh_comments_never_unresolved.2 sshChangeData⟩

/-- Claim C4 counterexample: on a record whose current revision object
lacks the _number field, getCurrentPatchsetNumber returns the empty
not-found result even though both the nested currentPatchSet path and the
top-level number path would yield a number, refuting the sentence that it
reports not-found only when none of the three paths yields one. -/
theorem patchset_empty_despite_other_paths :
    getCurrentPatchsetNumber degenerateChange = "" ∧
    getCurrentPatchsetNumber degenerateChangeNoRevisions = "5" ∧
    getStringValue degenerateChange "number" = "7" := by
  refine ⟨by decide, by decide, by decide⟩

/-- Claim C4 as amended: the resolver follows the REST path, then the
nested-patchset path, then the top-level number, and returns the same
patchset number on REST-shaped and SSH-shaped records carrying the same
underlying data; but a path, once selected, is final — it yields the
empty result when its own number field is missing even if a later path
would yield a number, so emptiness only means the selected path had no
number. -/
theorem patchset_schema_invariance (n : Int) (hash : String)
    (hh : hash ≠ "") :
    getCurrentPatchsetNumber (restShapedChange n hash) = toString n ∧
    getCurrentPatchsetNumber (sshShapedChange n) = toString n ∧
    getCurrentPatchsetNumber (restShapedChange n hash) =
      getCurrentPatchsetNumber (sshShapedChange n) ∧
    (∀ change : JObj, jlookup change "revisions" = none →
      jlookup change "currentPatchSet" = none →
      getCurrentPatchsetNumber change = getStringValue change "number") ∧
    (∀ (change : JObj) (cps : JObj), jlookup change "revisions" = none →
      jlookup change "currentPatchSet" = some (.jobj cps) →
      getCurrentPatchsetNumber change = getStringValue cps "number") := by
  have hrest : getCurrentPatchsetNumber (restShapedChange n hash) =
      toString n := by
    unfold getCurrentPatchsetNumber restShapedChange
    simp [jlookup, getStringValue, hh]
  have hssh : getCurrentPatchsetNumber (sshShapedChange n) = toString n := by
    unfold getCurrentPatchsetNumber sshShapedChange
    simp [jlookup, getStringValue]
  refine ⟨hrest, hssh, hrest.trans hssh.symm, ?_, ?_⟩
  · intro change h1 h2
    unfold getCurrentPatchsetNumber
    rw [h1, h2]
  · intro change cps h1 h2
    unfold getCurrentPatchsetNumber
    rw [h1, h2]

/-- Witness for the amended C4 at patchset 8 under revision hash
deadbeef. -/
theorem patchset_schema_invariance_witness :
    ("deadbeef" : String) ≠ "" ∧
    getCurrentPatchsetNumber (restShapedChange 8 "deadbeef") = "8" ∧
    getCurrentPatchsetNumber (sshShapedChange 8) = "8" :=
  ⟨by decide,
    (patchset_schema_invariance 8 "deadbeef" (by decide)).1,
    (patchset_schema_invariance 8 "deadbeef" (by decide)).2.1⟩

/-- Claim C5: each of the three logical query operations — listChanges
(runList), getChange (runDetails) and getComments (runComments) — returns
the REST result when REST succeeds; on a REST failure the identical
operation runs over SSH and, on SSH success, the final result is exactly
the SSH result with the REST failure recorded only as a non-fatal
warning; the operation fails only when both transports fail, and the
terminal error wraps the SSH-side failure. -/
theorem dual_backend_fallback :
    (∀ (v : List JObj) (s : Except String (List JObj)),
      runListCore (Except.ok v) s = (Except.ok v, [])) ∧
    (∀ (e : String) (v : List JObj),
      runListCore (Except.error e) (Except.ok v) =
        (Except.ok v, ["REST API failed: " ++ e])) ∧
    (∀ (e e2 : String),
      runListCore (Except.error e) (Except.error e2) =
        (Except.error ("failed to list changes: " ++ e2),
         ["REST API failed: " ++ e])) ∧
    (∀ (v : JObj) (s : Except String JObj),
      runDetailsCore (Except.ok v) s = (Except.ok v, [])) ∧
    (∀ (e : String) (v : JObj),
      runDetailsCore (Except.error e) (Except.ok v) =
        (Except.ok v, ["REST API failed: " ++ e])) ∧
    (∀ (e e2 : String),
      runDetailsCore (Except.error e) (Except.error e2) =
        (Except.error ("failed to get change details: " ++ e2),
         ["REST API failed: " ++ e])) ∧
    (∀ (v : List Comment) (s : Except String (List Comment)),
      runCommentsCore (Except.ok v) s = (Except.ok v, [])) ∧
    (∀ (e : String) (v : List Comment),
      runCommentsCore (Except.error e) (Except.ok v) =
        (Except.ok v, ["REST API failed: " ++ e])) ∧
    (∀ (e e2 : String),
      runCommentsCore (Except.error e) (Except.error e2) =
        (Except.error ("failed to get comments: " ++ e2),
         ["REST API failed: " ++ e])) :=
  ⟨fun _ _ => rfl, fun _ _ => rfl, fun _ _ => rfl,
   fun _ _ => rfl, fun _ _ => rfl, fun _ _ => rfl,
   fun _ _ => rfl, fun _ _ => rfl, fun _ _ => rfl⟩

/-- Claim C6 counterexample: for the one-digit change identifier 5 the
program places the literal shard 00 in the ref path, not the single digit
itself. -/
theorem shard_short_id_is_double_zero :
    getChangePrefix "5" = "00" ∧ getChangePrefix "5" ≠ "5" ∧
    buildRefsPath "5" "2" = "refs/changes/00/5/2" := by
  refine ⟨by decide, by decide, by decide⟩

/-- Claim C6 as amended: for every change identifier shorter than two
characters the shard component placed in the fetch ref path is the
constant string 00 (neither the digit itself nor a zero-padded form of
it). -/
theorem shard_short_id_constant (changeID patchsetNum : String)
    (h : changeID.length < 2) :
    getChangePrefix changeID = "00" ∧
    buildRefsPath changeID patchsetNum =
      "refs/changes/" ++ "00" ++ "/" ++ changeID ++ "/" ++ patchsetNum := by
  have hp : getChangePrefix changeID = "00" := by
    unfold getChangePrefix
    rw [if_neg (by omega)]
  exact ⟨hp, by unfold buildRefsPath; rw [hp]⟩

/-- Witness for the amended C6 at change 5, patchset 2. -/
theorem shard_short_id_constant_witness :
    ("5" : String).length < 2 ∧ getChangePrefix "5" = "00" :=
  ⟨by decide, (shard_short_id_constant "5" "2" (by decide)).1⟩

/-- Claim C7: for every change identifier with at least two decimal
digits and every patchset number, the built fetch ref path is
refs/changes/(shard)/(changeID)/(patchsetNumber) with the shard being the
last two characters of the identifier. -/
theorem build_ref_path_shard (changeID patchsetNum : String)
    (h : changeID.length ≥ 2)
    (hd : ∀ c ∈ changeID.data, c.isDigit) :
    buildRefsPath changeID patchsetNum =
      "refs/changes/" ++ changeID.takeRight 2 ++ "/" ++ changeID ++ "/"
        ++ patchsetNum := by
  unfold buildRefsPath getChangePrefix
  rw [if_pos h]

/-- Witness for C7 at change 384465, patchset 8, giving the literal path
refs/changes/65/384465/8. -/
theorem build_ref_path_shard_witness :
    ("384465" : String).length ≥ 2 ∧
    buildRefsPath "384465" "8" = "refs/changes/65/384465/8" :=
  ⟨by decide,
    (build_ref_path_shard "384465" "8" (by decide) (by decide)).trans
      (by decide)⟩

/-- Claim C9: field extraction is total by construction; an absent key
yields the empty string, a string field is returned as is, and a numeric
field (a whole-valued float64 after generic JSON decoding) is rendered as
the plain decimal integer with no fractional part, as on 384465. -/
theorem get_string_value_total :
    (∀ (data : JObj) (key : String), jlookup data key = none →
      getStringValue data key = "") ∧
    (∀ (data : JObj) (key s : String),
      jlookup data key = some (.jstr s) → getStringValue data key = s) ∧
    (∀ (data : JObj) (key : String) (n : Int),
      jlookup data key = some (.jnum n) →
      getStringValue data key = toString n) ∧
    getStringValue [("_number", .jnum 384465)] "_number" = "384465" ∧
    ("384465".data.contains '.') = false := by
  refine ⟨?_, ?_, ?_, by decide, by decide⟩
  · intro data key h
    unfold getStringValue
    rw [h]
  · intro data key s h
    unfold getStringValue
    rw [h]
  · intro data key n h
    unfold getStringValue
    rw [h]

/-- Witness for C9 on an absent key, a string field and a negative
numeric field. -/
theorem get_string_value_total_witness :
    getStringValue [] "missing" = "" ∧
    getStringValue [("subject", .jstr "fix")] "subject" = "fix" ∧
    getStringValue [("n", .jnum (-7))] "n" = "-7" :=
  ⟨get_string_value_total.1 [] "missing" rfl,
   get_string_value_total.2.1 [("subject", .jstr "fix")] "subject" "fix" rfl,
   get_string_value_total.2.2.1 [("n", .jnum (-7))] "n" (-7) rfl⟩

/-- Bound invariant of the pagination loop: starting with an accumulator
holding exactly start records, with every server page at most pageSize
long, the loop never accumulates maxLimit + pageSize records. -/
theorem fetchAllPages_length_bound (server : Nat → List JObj)
    (pageSize maxLimit : Nat) (hsrv : ∀ n, (server n).length ≤ pageSize)
    (start : Nat) (acc : List JObj) (reqs : Nat) :
    acc.length = start → start < maxLimit + pageSize →
    ((fetchAllPages server pageSize maxLimit start acc reqs).1).length <
      maxLimit + pageSize := by
  induction start, acc, reqs using fetchAllPages.induct server pageSize maxLimit with
  | case1 start acc reqs h page hp =>
    intro hlen hstart
    have hp2 : (server start).length = 0 := hp
    rw [fetchAllPages.eq_def, dif_pos h, dif_pos hp2]
    simpa [hlen] using hstart
  | case2 start acc reqs h page hp hshort =>
    intro hlen hstart
    have hp2 : ¬ (server start).length = 0 := hp
    have hshort2 : (server start).length < pageSize := hshort
    rw [fetchAllPages.eq_def, dif_pos h, dif_neg hp2, if_pos hshort2]
    simp only [List.length_append, hlen]
    omega
  | case3 start acc reqs h page hp acc2 hshort hmore ih =>
    intro hlen hstart
    have hp2 : ¬ (server start).length = 0 := hp
    have hshort2 : ¬ (server start).length < pageSize := hshort
    have hmore2 : lastHasMoreChanges (server start) = true := hmore
    rw [fetchAllPages.eq_def, dif_pos h, dif_neg hp2, if_neg hshort2,
      if_pos hmore2]
    refine ih ?_ ?_
    · show (acc ++ page).length = start + page.length
      simp [hlen]
    · have hsp : page.length ≤ pageSize := hsrv start
      omega
  | case4 start acc reqs h page hp hshort hmore =>
    intro hlen hstart
    have hp2 : ¬ (server start).length = 0 := hp
    have hshort2 : ¬ (server start).length < pageSize := hshort
    have hmore2 : ¬ lastHasMoreChanges (server start) = true := hmore
    rw [fetchAllPages.eq_def, dif_pos h, dif_neg hp2, if_neg hshort2,
      if_neg hmore2]
    simp only [List.length_append, hlen]
    have := hsrv start
    omega
  | case5 start acc reqs h =>
    intro hlen hstart
    rw [fetchAllPages.eq_def, dif_neg h]
    simpa [hlen] using hstart

/-- Claim C2 counterexample: with maxTotal=3 and a server returning
unlimited full pages of two records each carrying the continuation flag,
the bulk fetch does stop after 2 requests but emits 4 records, exceeding
the cap of 3 the claim asserts. -/
theorem pagination_exceeds_cap :
    (fetchAllChangesWithPagination unboundedServer 2 3).2 = 2 ∧
    (fetchAllChangesWithPagination unboundedServer 2 3).1.length = 4 ∧
    ¬ ((fetchAllChangesWithPagination unboundedServer 2 3).1.length ≤ 3) := by
  have hfull : fetchAllChangesWithPagination unboundedServer 2 3 =
      ([[("_more_changes", JValue.jbool true)],
        [("_more_changes", JValue.jbool true)],
        [("_more_changes", JValue.jbool true)],
        [("_more_changes", JValue.jbool true)]], 2) := by
    show fetchAllPages unboundedServer 2 3 0 [] 0 = _
    rw [fetchAllPages.eq_def]
    norm_num [lastHasMoreChanges, jlookup, unboundedServer]
    rw [fetchAllPages.eq_def]
    norm_num [lastHasMoreChanges, jlookup, unboundedServer]
    rw [fetchAllPages.eq_def]
    norm_num
  rw [hfull]
  exact ⟨rfl, rfl, by decide⟩

/-- Claim C2 as amended: the guard compares the already-fetched count
against maxTotal before each request, so no request is issued once the
count has reached the cap and the loop terminates; but the cap bounds
offsets, not emitted records — with pages of at most pageSize records the
result holds fewer than maxTotal + pageSize records, and the concrete
run with maxTotal=3 and full pages of 2 stops after 2 pages with 4
records, one short page worth above the cap. -/
theorem pagination_cap_checked_before_request (server : Nat → List JObj)
    (pageSize maxLimit : Nat) (hps : 0 < pageSize)
    (hsrv : ∀ n, (server n).length ≤ pageSize) :
    (fetchAllChangesWithPagination server pageSize maxLimit).1.length <
      maxLimit + pageSize ∧
    (∀ (start : Nat) (acc : List JObj) (reqs : Nat), maxLimit ≤ start →
      fetchAllPages server pageSize maxLimit start acc reqs = (acc, reqs)) := by
  constructor
  · exact fetchAllPages_length_bound server pageSize maxLimit hsrv 0 [] 0 rfl
      (by omega)
  · intro start acc reqs hge
    rw [fetchAllPages.eq_def, dif_neg (by omega)]

/-- Witness for the amended C2 at the unbounded two-record-page server
with maxTotal 3. -/
theorem pagination_cap_checked_before_request_witness :
    0 < 2 ∧
    (fetchAllChangesWithPagination unboundedServer 2 3).1.length < 3 + 2 :=
  ⟨by decide,
    (pagination_cap_checked_before_request unboundedServer 2 3 (by decide)
      (fun n => by simp [unboundedServer])).1⟩

/-- Claim C8 counterexample: two merged changes in the projects zeta then
alpha, one change each, yield count-tied repository statistics that are
not ordered by name ascending — the sorting comparator in the source
reads only the count field, so the claimed deterministic name tie-break
does not exist. -/
theorem aggregation_tie_not_name_sorted :
    (analyzeByRepository tiedRepoChanges).map Statistic.Name =
      ["zeta", "alpha"] ∧
    (analyzeByRepository tiedRepoChanges).map Statistic.Name ≠
      ["alpha", "zeta"] :=
  ⟨by decide, by decide⟩

/-- Claim C8 as amended: the by-repository and by-author aggregations are
sorted by count descending only, with the order among equal counts left
unspecified (Go map iteration feeding an unstable sort; first-appearance
order in this model), while the monthly timeline is sorted by month
ascending, as on the concrete two-month example. -/
theorem aggregation_sort_orders (changes : List JObj) :
    (analyzeByRepository changes).Pairwise (fun a b => b.Count ≤ a.Count) ∧
    (analyzeByAuthor changes).Pairwise (fun a b => b.Count ≤ a.Count) ∧
    (analyzeTimeline changes).Pairwise
      (fun a b => goStringLe a.Name b.Name = true) ∧
    (analyzeTimeline twoMonthChanges).map (fun s => (s.Name, s.Count)) =
      [("2025-01", 1), ("2025-02", 1)] := by
  have hcount_tot : ∀ a b : Statistic,
      (decide (b.Count ≤ a.Count)) = true ∨
      (decide (a.Count ≤ b.Count)) = true := by
    intro a b
    rcases Nat.le_total b.Count a.Count with hc | hc
    · left; exact decide_eq_true hc
    · right; exact decide_eq_true hc
  have hcount_trans : ∀ a b c : Statistic,
      decide (b.Count ≤ a.Count) = true → decide (c.Count ≤ b.Count) = true →
      decide (c.Count ≤ a.Count) = true := by
    intro a b c h1 h2
    exact decide_eq_true
      (Nat.le_trans (of_decide_eq_true h2) (of_decide_eq_true h1))
  refine ⟨?_, ?_, ?_, by decide⟩
  · exact List.Pairwise.imp (fun h => of_decide_eq_true h)
      (sortLe_pairwise (fun a b : Statistic => decide (b.Count ≤ a.Count))
        hcount_tot hcount_trans _)
  · exact List.Pairwise.imp (fun h => of_decide_eq_true h)
      (sortLe_pairwise (fun a b : Statistic => decide (b.Count ≤ a.Count))
        hcount_tot hcount_trans _)
  · exact sortLe_pairwise
      (fun a b : Statistic => goStringLe a.Name b.Name)
      (fun a b => goStringLe_total a.Name b.Name)
      (fun a b c h1 h2 => goStringLe_trans a.Name b.Name c.Name h1 h2) _

end GerritCLI
